import Mathlib

/-!
Verification development for the tmux terminal executor
(`scripts/tmux_bridge.py` and its thin CLI front ends).

The Python module is shallowly embedded here over `List Char`:

* `strip_ansi` models the `_ANSI_RE.sub("", text)` sanitizer;
* `splitlines`, `pyStrip`, `pySliceFrom` model the Python string
  primitives `str.splitlines`, `str.strip` and slicing `l[i:]` used by
  the bridge (restricted to the Latin-1 whitespace/line-break characters
  that can occur in terminal captures);
* `rfind` / `extractBetween` model the marker search in
  `_execute_with_markers`;
* `clean_marker_output`, `read_buffer`, `run_tmux`, `list_sessions`,
  `executeWithMarkers`, `executeWithPrompt` model the corresponding
  Python functions, with subprocess outcomes and pane captures passed in
  explicitly and the polling loop discretized (poll `k` happens at time
  `k * poll_interval` against the deadline `timeout`).
-/

/-- Whitespace predicate modelling Python `str.isspace` / regex `\s`
on the Latin-1 range (the characters produced by terminal captures). -/
def pyIsSpace (c : Char) : Bool :=
  c = ' ' || c = '\t' || c = '\n' || c = '\r' || c = '\x0b' || c = '\x0c' ||
  c = '\x1c' || c = '\x1d' || c = '\x1e' || c = '\x1f' || c = '\x85' || c = '\xa0'

/-- Model of Python `str.strip()`: drop whitespace from both ends. -/
def pyStrip (s : List Char) : List Char :=
  ((s.dropWhile pyIsSpace).reverse.dropWhile pyIsSpace).reverse

/-- Line-break characters recognised by Python `str.splitlines`. -/
def isLineBreak (c : Char) : Bool :=
  c = '\n' || c = '\r' || c = '\x0b' || c = '\x0c' ||
  c = '\x1c' || c = '\x1d' || c = '\x1e' || c = '\x85' ||
  c = '\u2028' || c = '\u2029'

/-- Worker for `splitlines`: `cur` is the line accumulated so far.
`"\r\n"` counts as a single break; a break always emits the current
line (possibly empty); a nonempty trailing segment is emitted at the
end of input, matching Python `str.splitlines`. -/
def splitlinesAux : List Char → List Char → List (List Char)
  | [], cur => if cur.isEmpty then [] else [cur]
  | c :: [], cur =>
    if isLineBreak c then cur :: splitlinesAux [] []
    else splitlinesAux [] (cur ++ [c])
  | c :: d :: rest, cur =>
    if c = '\r' && d = '\n' then cur :: splitlinesAux rest []
    else if isLineBreak c then cur :: splitlinesAux (d :: rest) []
    else splitlinesAux (d :: rest) (cur ++ [c])

/-- Model of Python `str.splitlines()`. -/
def splitlines (s : List Char) : List (List Char) :=
  splitlinesAux s []

/-- Model of Python `"\n".join(lines)`. -/
def joinNl : List (List Char) → List Char
  | [] => []
  | [l] => l
  | l :: ls => l ++ '\n' :: joinNl ls

/-- The single-quote character, written via its code point. -/
def squote : Char := Char.ofNat 39

/-- Parameter bytes of a CSI sequence: `[0-9;?]` in `_ANSI_RE`. -/
def isCsiParam (c : Char) : Bool :=
  c.isDigit || c = ';' || c = '?'

/-- Length (in characters after `ESC [`) consumed by the CSI alternative
`\[[0-9;?]*[A-Za-z]` of `_ANSI_RE`, or `none` if it does not match.
The parameter class and the final-byte class are disjoint, so the greedy
`*` never needs to backtrack. -/
def csiLen (cs : List Char) : Option Nat :=
  let k := (cs.takeWhile isCsiParam).length
  match cs.drop k with
  | c :: _ => if c.isAlpha then some (k + 1) else none
  | [] => none

/-- Length consumed after `ESC ]` by the OSC alternative
`\].*?(\x07|\x1b\\)` of `_ANSI_RE`: a lazy scan to the nearest `BEL` or
`ESC \` terminator, where `.` does not match a newline. -/
def oscLen : List Char → Option Nat
  | [] => none
  | '\x07' :: _ => some 1
  | '\x1b' :: '\\' :: _ => some 2
  | c :: rest =>
    if c = '\n' then none
    else (oscLen rest).map (· + 1)

/-- Given the characters following an `ESC`, the number of characters
consumed by the body of `_ANSI_RE` (the part after `\x1b`), trying the
alternatives in the pattern's order, or `none` when no alternative
matches at this position. -/
def ansiMatch : List Char → Option Nat
  | '[' :: rest => (csiLen rest).map (· + 1)
  | ']' :: rest => (oscLen rest).map (· + 1)
  | '(' :: d :: _ => if d = 'A' || d = 'B' || d = '0' || d = '1' || d = '2' then some 2 else none
  | ')' :: d :: _ => if d = 'A' || d = 'B' || d = '0' || d = '1' || d = '2' then some 2 else none
  | '>' :: _ => some 1
  | '=' :: _ => some 1
  | '#' :: d :: _ => if d.isDigit then some 2 else none
  | _ => none

/-- Scanner for `strip_ansi` (`_ANSI_RE.sub("", text)`): every
alternative of the pattern begins with `ESC`, so the left-to-right scan
of `re.sub` is equivalent to scanning for `ESC` and attempting a match
there; an `ESC` that heads no complete sequence is kept verbatim.  The
first argument is recursion fuel. -/
def stripAnsiFuel : Nat → List Char → List Char
  | 0, s => s
  | _, [] => []
  | fuel + 1, c :: cs =>
    if c = '\x1b' then
      match ansiMatch cs with
      | some n => stripAnsiFuel fuel (cs.drop n)
      | none => c :: stripAnsiFuel fuel cs
    else c :: stripAnsiFuel fuel cs

/-- Model of `strip_ansi` (`_ANSI_RE.sub("", text)`): scanning consumes
at least one character per step, so fuel `s.length` always suffices and
the fuel-exhausted branch is unreachable. -/
def strip_ansi (s : List Char) : List Char :=
  stripAnsiFuel s.length s

/-- Worker for `rfind`: the greatest index `i ≤ n` at which `needle`
occurs in `hay`, searching downward from `n`. -/
def rfindAux (needle hay : List Char) : Nat → Option Nat
  | 0 => if needle.isPrefixOf hay then some 0 else none
  | i + 1 =>
    if needle.isPrefixOf (hay.drop (i + 1)) then some (i + 1)
    else rfindAux needle hay i

/-- Model of Python `hay.rfind(needle)`: the start index of the last
occurrence of `needle` in `hay` (`none` models Python's `-1`). -/
def rfind (needle hay : List Char) : Option Nat :=
  rfindAux needle hay hay.length

/-- The extraction step of `_execute_with_markers` on one captured
buffer: `start_idx = buf.rfind(start_marker)`,
`end_idx = buf.rfind(end_marker)`; when both are found and
`end_idx > start_idx`, the slice
`buf[start_idx + len(start_marker) : end_idx]` is the raw output. -/
def extractBetween (startM endM buf : List Char) : Option (List Char) :=
  match rfind startM buf, rfind endM buf with
  | some si, some ei =>
    if si < ei then some ((buf.drop (si + startM.length)).take (ei - (si + startM.length)))
    else none
  | _, _ => none

/-- Model of Python `needle in hay` (substring containment). -/
def containsSub (needle hay : List Char) : Bool :=
  (List.range (hay.length + 1)).any (fun i => needle.isPrefixOf (hay.drop i))

/-- Model of `prompt_prefix_re.sub("", stripped)` for the anchored
pattern `^[\$#>]\s*`: remove one leading `$`, `#` or `>` together with
the following run of whitespace, if present. -/
def stripPrompt (s : List Char) : List Char :=
  match s with
  | c :: rest =>
    if c = '$' || c = '#' || c = '>' then rest.dropWhile pyIsSpace else s
  | [] => []

/-- The literal `echo '__TMUX_BRIDGE_` tested by
`without_prompt.startswith(...)` in `_clean_marker_output`. -/
def echoMarkerLit : List Char :=
  "echo ".toList ++ [squote] ++ "__TMUX_BRIDGE_".toList

/-- The literal `__TMUX_BRIDGE_` tested by the containment check in
`_clean_marker_output`. -/
def markerLit : List Char :=
  "__TMUX_BRIDGE_".toList

/-- The per-line keep condition of `_clean_marker_output`: a line is
kept unless its prompt-stripped form starts with the marker-echo
literal, equals the stripped command, or its stripped form still
contains `__TMUX_BRIDGE_`. -/
def keepLine (cmd line : List Char) : Bool :=
  let stripped := pyStrip line
  let withoutPrompt := stripPrompt stripped
  !(echoMarkerLit.isPrefixOf withoutPrompt) &&
  !(withoutPrompt == pyStrip cmd) &&
  !(containsSub markerLit stripped)

/-- Model of `TmuxController._clean_marker_output(raw, command)`. -/
def clean_marker_output (raw cmd : List Char) : List Char :=
  pyStrip (joinNl ((splitlines raw).filter (keepLine cmd)))

/-- Model of the Python slice `l[i:]` (with a possibly negative `i`). -/
def pySliceFrom (l : List (List Char)) (i : Int) : List (List Char) :=
  if i < 0 then l.drop ((l.length + i).toNat) else l.drop i.toNat

/-- Model of `TmuxController.read_buffer`: `raw` is the text returned by
the `capture-pane` invocation; the capture is sanitized, and when
`lines = some n` the code joins `cleaned.splitlines()[-n:]`. -/
def read_buffer (raw : List Char) (lines : Option Int) : List Char :=
  let cleaned := strip_ansi raw
  match lines with
  | none => cleaned
  | some n => joinNl (pySliceFrom (splitlines cleaned) (-n))

/-- Outcome of `subprocess.run(["tmux", *args], ...)` as observed by
`_run_tmux`: the tool may be missing (`FileNotFoundError`), exceed the
fixed internal timeout (`subprocess.TimeoutExpired`), or complete with a
return code and captured standard output / standard error text. -/
inductive SpawnResult where
  | notFound : SpawnResult
  | timedOut : SpawnResult
  | completed (rc : Int) (stdout stderr : List Char) : SpawnResult

/-- The fixed per-invocation subprocess timeout (`timeout=10`) that
`_run_tmux` passes to `subprocess.run`. -/
def tmuxSubprocessTimeoutSecs : Nat := 10

/-- Model of Python `str(i)` for an `int`. -/
def intChars (i : Int) : List Char :=
  if i < 0 then '-' :: Nat.toDigits 10 i.natAbs else Nat.toDigits 10 i.toNat

/-- Model of Python `" ".join(parts)`. -/
def joinSpace : List (List Char) → List Char
  | [] => []
  | [l] => l
  | l :: ls => l ++ ' ' :: joinSpace ls

/-- Message raised by `_run_tmux` on `FileNotFoundError`. -/
def msgUnavailable : List Char :=
  "tmux is not installed or not in PATH".toList

/-- Fixed head of the message raised by `_run_tmux` on
`subprocess.TimeoutExpired`. -/
def msgTimedOutPre : List Char :=
  "tmux command timed out: ".toList

/-- Fixed head of the message raised by `_run_tmux` on a non-zero exit
status. -/
def msgFailedPre : List Char :=
  "tmux command failed (rc=".toList

/-- Model of `TmuxController._run_tmux(*args)`: the subprocess outcome
is passed in explicitly; the three failure modes raise `TmuxError` with
the exact message texts built by the Python code, and a zero exit status
returns standard output unchanged. -/
def run_tmux (args : List (List Char)) (r : SpawnResult) : Except (List Char) (List Char) :=
  let cmd := "tmux".toList :: args
  match r with
  | .notFound => .error msgUnavailable
  | .timedOut => .error (msgTimedOutPre ++ joinSpace cmd)
  | .completed rc out err =>
    if rc ≠ 0 then
      .error (msgFailedPre ++ intChars rc ++ "): ".toList ++ joinSpace cmd ++
        "\nstderr: ".toList ++ pyStrip err)
    else .ok out

/-- The three failure kinds of the Multiplexer Gateway named by the
specification's error taxonomy. -/
inductive GatewayErrorKind where
  | toolUnavailable : GatewayErrorKind
  | toolTimeout : GatewayErrorKind
  | toolCommandFailed : GatewayErrorKind
deriving DecidableEq

/-- A caller-side classifier for `TmuxError` messages: the three raise
sites of `_run_tmux` produce messages with pairwise distinct fixed
heads, so the kind can be recovered from the message text. -/
def classifyTmuxError (msg : List Char) : GatewayErrorKind :=
  if msgTimedOutPre.isPrefixOf msg then .toolTimeout
  else if msgFailedPre.isPrefixOf msg then .toolCommandFailed
  else .toolUnavailable

/-- Model of `TmuxController.list_sessions()`: runs
`tmux list-sessions -F "#\x7bsession_name\x7d"`, keeps the nonblank lines of
its output, and degrades to `[]` on any `TmuxError`. -/
def list_sessions (r : SpawnResult) : List (List Char) :=
  match run_tmux ["list-sessions".toList, "-F".toList, "#\x7bsession_name\x7d".toList] r with
  | .ok out => (splitlines out).filter (fun s => !(pyStrip s).isEmpty)
  | .error _ => []

/-- The marker token of `_execute_with_markers`:
`uuid.uuid4().hex[:12]`, with the 32-character `uuid4().hex` string
passed in explicitly. -/
def markerToken (uuidHex : List Char) : List Char :=
  uuidHex.take 12

/-- `start_marker = f"__TMUX_BRIDGE_START_{uid}__"`. -/
def mkStartMarker (t : List Char) : List Char :=
  "__TMUX_BRIDGE_START_".toList ++ t ++ "__".toList

/-- `end_marker = f"__TMUX_BRIDGE_END_{uid}__"`. -/
def mkEndMarker (t : List Char) : List Char :=
  "__TMUX_BRIDGE_END_".toList ++ t ++ "__".toList

/-- Marker format as the specification document words it (for
comparison with `mkStartMarker`, which is the code's format):
`start_marker = "__BRIDGE_START_<token>__"`. -/
def specStartMarker (t : List Char) : List Char :=
  "__BRIDGE_START_".toList ++ t ++ "__".toList

/-- The shell text `echo '<marker>'` sent around the command. -/
def echoCmd (m : List Char) : List Char :=
  "echo ".toList ++ squote :: (m ++ [squote])

/-- Lower-case hexadecimal digits, the alphabet of `uuid4().hex`. -/
def isHexDigit (c : Char) : Bool :=
  c.isDigit || c = 'a' || c = 'b' || c = 'c' || c = 'd' || c = 'e' || c = 'f'

/-- A multiplexer operation issued by the Session Handle: `send-keys`
(state-mutating) or `capture-pane` (read-only). -/
inductive TmuxEffect where
  | sendKeys (text : List Char) (enter : Bool) : TmuxEffect
  | capturePane (history : Bool) : TmuxEffect
deriving DecidableEq

/-- Whether an effect is a key-send. -/
def isSendKeys : TmuxEffect → Bool
  | .sendKeys _ _ => true
  | .capturePane _ => false

/-- Result of `execute_and_wait`: extracted output, or the
`CommandTimeoutError` carrying the timeout value and the command text
that the Python code interpolates into its message. -/
inductive ExecOutcome where
  | success (out : List Char) : ExecOutcome
  | timeoutErr (timeoutSecs : ℚ) (cmd : List Char) : ExecOutcome
deriving DecidableEq

/-- Number of iterations of a `while time.monotonic() < deadline` loop
whose body takes `interval` seconds: polls happen at times
`0, interval, 2 * interval, ...`, so the loop body runs exactly for the
`k` with `k * interval < timeout`. -/
def numPolls (timeout interval : ℚ) : Nat :=
  ⌈timeout / interval⌉₊

/-- The polling loop of `_execute_with_markers`: at poll `k` the pane is
captured (one `capture-pane` effect) and `check k` is the marker
extraction on that capture; the loop stops at the first success or when
the fuel (the number of polls before the deadline) is exhausted. -/
def pollAux (check : Nat → Option (List Char)) : Nat → Nat → List TmuxEffect × Option (List Char)
  | _, 0 => ([], none)
  | k, fuel + 1 =>
    match check k with
    | some out => ([.capturePane true], some out)
    | none =>
      let r := pollAux check (k + 1) fuel
      (.capturePane true :: r.1, r.2)

/-- Model of `_execute_with_markers`: sends the start-marker echo, the
command, and the end-marker echo (each with Enter), then polls the
captured buffers `bufs` until both markers are found in order or the
deadline passes.  Returns the full effect trace and the outcome. -/
def executeWithMarkers (bufs : Nat → List Char) (cmd uuidHex : List Char)
    (timeout interval : ℚ) : List TmuxEffect × ExecOutcome :=
  let startM := mkStartMarker (markerToken uuidHex)
  let endM := mkEndMarker (markerToken uuidHex)
  let sends : List TmuxEffect :=
    [.sendKeys (echoCmd startM) true, .sendKeys cmd true, .sendKeys (echoCmd endM) true]
  let check := fun k => extractBetween startM endM (read_buffer (bufs k) none)
  let r := pollAux check 0 (numPolls timeout interval)
  (sends ++ r.1,
    match r.2 with
    | some out => .success (clean_marker_output out cmd)
    | none => .timeoutErr timeout cmd)

/-- One iteration body of `_execute_with_prompt` after the initial
sleep: capture the buffer, diff positionally against the pre-buffer
length, and test the prompt pattern (`pm` models
`prompt_re.search(...) is not None`) first on the last line of the new
content, then on the visible last pane line. -/
def promptStep (pm : List Char → Bool) (preLen : Nat) (bufRaw visRaw : List Char) :
    Option (List Char) :=
  let buf := read_buffer bufRaw none
  let newContent := buf.drop preLen
  let lines := splitlines newContent
  if (match lines.getLast? with | some last => pm last | none => false) then
    some (joinNl (if 1 < lines.length then (lines.drop 1).dropLast else []))
  else
    let visible := read_buffer visRaw (some 1)
    if pm visible then
      let outputLines := splitlines newContent
      let outputLines1 := if outputLines.isEmpty then outputLines else outputLines.drop 1
      let outputLines2 :=
        match outputLines1.getLast? with
        | some last => if pm last then outputLines1.dropLast else outputLines1
        | none => outputLines1
      some (joinNl outputLines2)
    else none

/-- The polling loop of `_execute_with_prompt`. -/
def promptLoop (step : Nat → Option (List Char)) : Nat → Nat → Option (List Char)
  | _, 0 => none
  | k, fuel + 1 =>
    match step k with
    | some o => some o
    | none => promptLoop step (k + 1) fuel

/-- Model of `_execute_with_prompt`: `preRaw` is the capture taken
before the command is sent, `bufs k` / `visRaw k` the captures of poll
`k`. -/
def executeWithPrompt (bufs visibles : Nat → List Char) (pm : List Char → Bool)
    (preRaw cmd : List Char) (timeout interval : ℚ) : ExecOutcome :=
  let preLen := (read_buffer preRaw none).length
  match promptLoop (fun k => promptStep pm preLen (bufs k) (visibles k)) 0
      (numPolls timeout interval) with
  | some out => .success out
  | none => .timeoutErr timeout cmd

/-- Model of `execute_and_wait`'s protocol dispatch on `use_markers`. -/
def execute_and_wait (useMarkers : Bool) (bufs visibles : Nat → List Char)
    (pm : List Char → Bool) (preRaw cmd uuidHex : List Char)
    (timeout interval : ℚ) : ExecOutcome :=
  if useMarkers then (executeWithMarkers bufs cmd uuidHex timeout interval).2
  else executeWithPrompt bufs visibles pm preRaw cmd timeout interval

/-- The last `n` elements of a list (mathematical form, used to state
the line-truncation claims). -/
def lastLines (n : Nat) (ls : List (List Char)) : List (List Char) :=
  ls.drop (ls.length - n)

theorem isPrefixOf_append_self (l r : List Char) : l.isPrefixOf (l ++ r) = true := by
  induction l with
  | nil => simp [List.isPrefixOf]
  | cons c cs ih => simp [List.isPrefixOf, ih]

theorem stripAnsiFuel_noEsc (fuel : Nat) :
    ∀ s : List Char, '\x1b' ∉ s → stripAnsiFuel fuel s = s := by
  induction fuel with
  | zero => intro s _; cases s <;> rfl
  | succ fuel ih =>
    intro s h
    cases s with
    | nil => rfl
    | cons c cs =>
      have hc : ¬ c = '\x1b' := fun hh => h (hh ▸ List.mem_cons_self c cs)
      rw [stripAnsiFuel, if_neg hc, ih cs (fun hm => h (List.mem_cons_of_mem c hm))]

/-- Claim C6: for every input string containing no escape character,
`strip_ansi` returns the input unchanged. -/
theorem C6_sanitizer_identity (s : List Char) (h : '\x1b' ∉ s) : strip_ansi s = s :=
  stripAnsiFuel_noEsc s.length s h

theorem C6_sanitizer_identity_witness :
    '\x1b' ∉ "hello $ [0;31m world".toList ∧
      strip_ansi "hello $ [0;31m world".toList = "hello $ [0;31m world".toList :=
  ⟨by decide, C6_sanitizer_identity "hello $ [0;31m world".toList (by decide)⟩

/-- Claim C7: the static listing operation returns a list of session
names for every subprocess outcome, and on any failing outcome
(tool missing, tool timeout, non-zero exit) it returns the empty list
instead of propagating the failure; on success every returned name is a
line of the tool's output. -/
theorem C7_list_sessions_never_raises (rc : Int) (out err : List Char) (h : rc ≠ 0) :
    list_sessions .notFound = [] ∧
    list_sessions .timedOut = [] ∧
    list_sessions (.completed rc out err) = [] ∧
    ∀ s ∈ list_sessions (.completed 0 out err), s ∈ splitlines out := by
  refine ⟨rfl, rfl, ?_, ?_⟩
  · simp [list_sessions, run_tmux, h]
  · intro s hs
    simp only [list_sessions, run_tmux] at hs
    rw [if_neg (by simp)] at hs
    exact (List.mem_filter.mp hs).1

theorem C7_list_sessions_never_raises_witness :
    (1 : Int) ≠ 0 ∧
    (list_sessions .notFound = [] ∧
      list_sessions .timedOut = [] ∧
      list_sessions (.completed 1 "a\nb\n".toList " boom".toList) = [] ∧
      ∀ s ∈ list_sessions (.completed 0 "a\nb\n".toList " boom".toList),
        s ∈ splitlines "a\nb\n".toList) :=
  ⟨by decide, C7_list_sessions_never_raises 1 "a\nb\n".toList " boom".toList (by decide)⟩

/-- Claim C3, counterexample: the markers generated by
`_execute_with_markers` are `__TMUX_BRIDGE_START_<token>__`, not the
`__BRIDGE_START_<token>__` form the claim states, as evaluation at the
token drawn from a concrete `uuid4().hex` value shows. -/
theorem C3_counterexample :
    mkStartMarker (markerToken "ab12cd34ef56ab12cd34ef56ab12cd34".toList) ≠
      specStartMarker (markerToken "ab12cd34ef56ab12cd34ef56ab12cd34".toList) := by
  decide

/-- Claim C3 (amended): on every call with markers enabled the marker
pair is derived from one random fixed-length hexadecimal token — the
first 12 characters of `uuid4().hex` — as
`start_marker = "__TMUX_BRIDGE_START_<token>__"` and
`end_marker = "__TMUX_BRIDGE_END_<token>__"`. -/
theorem C3_marker_format (uuidHex : List Char) (hlen : uuidHex.length = 32)
    (hhex : ∀ c ∈ uuidHex, isHexDigit c = true) :
    (markerToken uuidHex).length = 12 ∧
    (∀ c ∈ markerToken uuidHex, isHexDigit c = true) ∧
    mkStartMarker (markerToken uuidHex) =
      "__TMUX_BRIDGE_START_".toList ++ markerToken uuidHex ++ "__".toList ∧
    mkEndMarker (markerToken uuidHex) =
      "__TMUX_BRIDGE_END_".toList ++ markerToken uuidHex ++ "__".toList := by
  refine ⟨?_, ?_, rfl, rfl⟩
  · simp [markerToken, hlen]
  · intro c hc
    exact hhex c (List.mem_of_mem_take hc)

theorem C3_marker_format_witness :
    "0123456789abcdef0123456789abcdef".toList.length = 32 ∧
    ((markerToken "0123456789abcdef0123456789abcdef".toList).length = 12 ∧
      (∀ c ∈ markerToken "0123456789abcdef0123456789abcdef".toList, isHexDigit c = true) ∧
      mkStartMarker (markerToken "0123456789abcdef0123456789abcdef".toList) =
        "__TMUX_BRIDGE_START_".toList ++
          markerToken "0123456789abcdef0123456789abcdef".toList ++ "__".toList ∧
      mkEndMarker (markerToken "0123456789abcdef0123456789abcdef".toList) =
        "__TMUX_BRIDGE_END_".toList ++
          markerToken "0123456789abcdef0123456789abcdef".toList ++ "__".toList) :=
  ⟨by decide, C3_marker_format "0123456789abcdef0123456789abcdef".toList (by decide) (by decide)⟩

theorem timedOutPre_not_prefixOf_failed (rest : List Char) :
    msgTimedOutPre.isPrefixOf (msgFailedPre ++ rest) = false := rfl

/-- Claim C5: every failing invocation of `_run_tmux` fails with one of
three mutually distinguishable error kinds — tool unavailable
(`FileNotFoundError`), tool timeout (`subprocess.TimeoutExpired`), and
tool command failed (non-zero exit, carrying the exit code and the
stripped error stream in the message) — and the fixed message heads of
the three raise sites let a caller (modelled by `classifyTmuxError`)
tell the kinds apart; a zero exit status is not an error. -/
theorem C5_gateway_error_taxonomy (args : List (List Char)) (rc : Int)
    (out err : List Char) (h : rc ≠ 0) :
    (run_tmux args .notFound = .error msgUnavailable ∧
      classifyTmuxError msgUnavailable = .toolUnavailable) ∧
    (∃ m, run_tmux args .timedOut = .error m ∧ classifyTmuxError m = .toolTimeout) ∧
    (∃ m, run_tmux args (.completed rc out err) = .error m ∧
      classifyTmuxError m = .toolCommandFailed ∧
      intChars rc <:+: m ∧ pyStrip err <:+: m) ∧
    (∀ o e2, run_tmux args (.completed 0 o e2) = .ok o) := by
  refine ⟨⟨rfl, by decide⟩, ?_, ?_, fun o e2 => rfl⟩
  · exact ⟨_, rfl, by simp [classifyTmuxError, isPrefixOf_append_self]⟩
  · refine ⟨msgFailedPre ++ intChars rc ++ "): ".toList ++
      joinSpace ("tmux".toList :: args) ++ "\nstderr: ".toList ++ pyStrip err,
      ?_, ?_, ?_, ?_⟩
    · simp [run_tmux, h]
    · simp [classifyTmuxError, timedOutPre_not_prefixOf_failed, isPrefixOf_append_self]
    · refine ⟨msgFailedPre, "): ".toList ++ joinSpace ("tmux".toList :: args) ++
        "\nstderr: ".toList ++ pyStrip err, ?_⟩
      simp only [List.append_assoc]
    · refine ⟨msgFailedPre ++ intChars rc ++ "): ".toList ++
        joinSpace ("tmux".toList :: args) ++ "\nstderr: ".toList, [], ?_⟩
      simp only [List.append_assoc, List.append_nil]

theorem C5_gateway_error_taxonomy_witness :
    (1 : Int) ≠ 0 ∧
    ((run_tmux ["ls".toList] .notFound = .error msgUnavailable ∧
      classifyTmuxError msgUnavailable = .toolUnavailable) ∧
    (∃ m, run_tmux ["ls".toList] .timedOut = .error m ∧
      classifyTmuxError m = .toolTimeout) ∧
    (∃ m, run_tmux ["ls".toList] (.completed 1 [] " boom".toList) = .error m ∧
      classifyTmuxError m = .toolCommandFailed ∧
      intChars 1 <:+: m ∧ pyStrip " boom".toList <:+: m) ∧
    (∀ o e2, run_tmux ["ls".toList] (.completed 0 o e2) = .ok o)) :=
  ⟨by decide, C5_gateway_error_taxonomy ["ls".toList] 1 [] " boom".toList (by decide)⟩

theorem rfindAux_last (needle hay : List Char) :
    ∀ n i, i ≤ n → needle.isPrefixOf (hay.drop i) = true →
      (∀ j, i < j → j ≤ n → needle.isPrefixOf (hay.drop j) = false) →
      rfindAux needle hay n = some i := by
  intro n
  induction n with
  | zero =>
    intro i hle hocc _
    have h0 : i = 0 := Nat.le_zero.mp hle
    subst h0
    rw [List.drop_zero] at hocc
    simp [rfindAux, hocc]
  | succ n ih =>
    intro i hle hocc hnone
    by_cases hp : needle.isPrefixOf (hay.drop (n + 1)) = true
    · have hi : i = n + 1 := by
        by_contra hne
        have hlt : i < n + 1 := lt_of_le_of_ne hle hne
        rw [hnone (n + 1) hlt (le_refl _)] at hp
        cases hp
      subst hi
      simp [rfindAux, hp]
    · have hp' : needle.isPrefixOf (hay.drop (n + 1)) = false := by
        cases hb : needle.isPrefixOf (hay.drop (n + 1))
        · rfl
        · exact absurd hb hp
      have hi : i ≤ n := by
        rcases Nat.eq_or_lt_of_le hle with h1 | h1
        · exfalso; rw [h1] at hocc; rw [hocc] at hp'; cases hp'
        · omega
      rw [rfindAux, if_neg (by simp [hp'])]
      exact ih i hi hocc (fun j hj1 hj2 => hnone j hj1 (le_trans hj2 (Nat.le_succ n)))

theorem rfind_last (needle hay : List Char) (i : Nat)
    (hle : i ≤ hay.length)
    (hocc : needle.isPrefixOf (hay.drop i) = true)
    (hlast : ∀ j, i < j → j ≤ hay.length → needle.isPrefixOf (hay.drop j) = false) :
    rfind needle hay = some i :=
  rfindAux_last needle hay hay.length i hle hocc hlast

/-- Claim C1: on every captured buffer the extraction step takes the
last occurrence of the start marker and the last occurrence of the end
marker (so earlier stale occurrences in the scroll-back prefix do not
matter), and extracts the substring strictly between them exactly when
both are found with the end after the start; conversely an extraction
only ever happens under that condition and yields that substring. -/
theorem C1_marker_extraction (s e p m t : List Char) (hs : s ≠ [])
    (hlastS : ∀ j ∈ List.range ((p ++ s ++ m ++ e ++ t).length + 1),
      p.length < j → s.isPrefixOf ((p ++ s ++ m ++ e ++ t).drop j) = false)
    (hlastE : ∀ j ∈ List.range ((p ++ s ++ m ++ e ++ t).length + 1),
      p.length + s.length + m.length < j →
        e.isPrefixOf ((p ++ s ++ m ++ e ++ t).drop j) = false) :
    extractBetween s e (p ++ s ++ m ++ e ++ t) = some m ∧
    ∀ b out, extractBetween s e b = some out →
      ∃ si ei, rfind s b = some si ∧ rfind e b = some ei ∧ si < ei ∧
        out = (b.drop (si + s.length)).take (ei - (si + s.length)) := by
  constructor
  · have hb1 : p ++ s ++ m ++ e ++ t = p ++ (s ++ (m ++ (e ++ t))) := by
      simp [List.append_assoc]
    have hb2 : p ++ s ++ m ++ e ++ t = (p ++ s ++ m) ++ (e ++ t) := by
      simp [List.append_assoc]
    have hb3 : p ++ s ++ m ++ e ++ t = (p ++ s) ++ (m ++ (e ++ t)) := by
      simp [List.append_assoc]
    have hoccS : s.isPrefixOf ((p ++ s ++ m ++ e ++ t).drop p.length) = true := by
      rw [hb1, List.drop_left]
      exact isPrefixOf_append_self s (m ++ (e ++ t))
    have hoccE : e.isPrefixOf
        ((p ++ s ++ m ++ e ++ t).drop (p.length + s.length + m.length)) = true := by
      have hlen2 : (p ++ s ++ m).length = p.length + s.length + m.length := by
        simp [Nat.add_assoc]
      rw [hb2, ← hlen2, List.drop_left]
      exact isPrefixOf_append_self e t
    have hlenbuf : (p ++ s ++ m ++ e ++ t).length =
        p.length + s.length + m.length + e.length + t.length := by
      simp [Nat.add_assoc]
    have hfS : rfind s (p ++ s ++ m ++ e ++ t) = some p.length := by
      refine rfind_last s _ p.length (by omega) hoccS ?_
      intro j hj1 hj2
      exact hlastS j (List.mem_range.mpr (by omega)) hj1
    have hfE : rfind e (p ++ s ++ m ++ e ++ t) =
        some (p.length + s.length + m.length) := by
      refine rfind_last e _ (p.length + s.length + m.length) (by omega) hoccE ?_
      intro j hj1 hj2
      exact hlastE j (List.mem_range.mpr (by omega)) hj1
    have hspos : 0 < s.length := List.length_pos.mpr hs
    rw [extractBetween, hfS, hfE]
    dsimp only
    rw [if_pos (by omega)]
    congr 1
    have harith : p.length + s.length + m.length - (p.length + s.length) = m.length := by
      omega
    rw [harith]
    have hlen3 : (p ++ s).length = p.length + s.length := by simp
    rw [hb3, ← hlen3, List.drop_left, List.take_left]
  · intro b out h
    cases hS : rfind s b with
    | none => rw [extractBetween, hS] at h; cases h
    | some si =>
      cases hE : rfind e b with
      | none => rw [extractBetween, hS, hE] at h; cases h
      | some ei =>
        rw [extractBetween, hS, hE] at h
        dsimp only at h
        by_cases hlt : si < ei
        · rw [if_pos hlt] at h
          exact ⟨si, ei, rfl, rfl, hlt, (Option.some_inj.mp h).symm⟩
        · rw [if_neg hlt] at h; cases h

theorem C1_marker_extraction_witness :
    "S_".toList ≠ ([] : List Char) ∧
    extractBetween "S_".toList "_E".toList
      ("xS_E_".toList ++ "S_".toList ++ "hi".toList ++ "_E".toList ++ "z".toList) =
      some "hi".toList :=
  ⟨by decide,
    (C1_marker_extraction "S_".toList "_E".toList "xS_E_".toList "hi".toList "z".toList
      (by decide) (by decide) (by decide)).1⟩

theorem splitlinesAux_cons_noBreak (c : Char) (l' cur : List Char)
    (hc : isLineBreak c = false) :
    splitlinesAux (c :: l') cur = splitlinesAux l' (cur ++ [c]) := by
  have hcr : ¬ c = '\r' := by
    intro hh; rw [hh] at hc; exact absurd hc (by decide)
  cases l' with
  | nil => simp [splitlinesAux, hc]
  | cons d rest =>
    rw [splitlinesAux, if_neg (by simp [hcr]), if_neg (by simp [hc])]

theorem splitlinesAux_noBreak (l : List Char) :
    ∀ cur, (∀ c ∈ l, isLineBreak c = false) →
      splitlinesAux l cur = if (cur ++ l).isEmpty then [] else [cur ++ l] := by
  induction l with
  | nil => intro cur h; simp [splitlinesAux]
  | cons c l' ih =>
    intro cur h
    have hc : isLineBreak c = false := h c (List.mem_cons_self c l')
    rw [splitlinesAux_cons_noBreak c l' cur hc]
    rw [ih (cur ++ [c]) (fun x hx => h x (List.mem_cons_of_mem c hx))]
    simp

theorem splitlinesAux_cons_nl (rest cur : List Char) :
    splitlinesAux ('\n' :: rest) cur = cur :: splitlinesAux rest [] := by
  cases rest with
  | nil => simp [splitlinesAux, isLineBreak]
  | cons d rest' => rw [splitlinesAux, if_neg (by simp), if_pos (by decide)]

theorem splitlinesAux_append_nl (l : List Char) :
    ∀ (rest cur : List Char), (∀ c ∈ l, isLineBreak c = false) →
      splitlinesAux (l ++ '\n' :: rest) cur = (cur ++ l) :: splitlinesAux rest [] := by
  induction l with
  | nil =>
    intro rest cur _
    rw [List.nil_append, splitlinesAux_cons_nl rest cur, List.append_nil]
  | cons c l' ih =>
    intro rest cur h
    have hc : isLineBreak c = false := h c (List.mem_cons_self c l')
    rw [List.cons_append,
      splitlinesAux_cons_noBreak c (l' ++ '\n' :: rest) cur hc,
      ih rest (cur ++ [c]) (fun x hx => h x (List.mem_cons_of_mem c hx))]
    simp

theorem splitlinesAux_ne_nil (l : List Char) :
    ∀ cur : List Char, cur ++ l ≠ [] → splitlinesAux l cur ≠ [] := by
  induction l with
  | nil =>
    intro cur h
    rw [List.append_nil] at h
    simp [splitlinesAux, h]
  | cons c l' ih =>
    intro cur _
    cases l' with
    | nil =>
      rw [splitlinesAux]
      split
      · simp
      · exact ih (cur ++ [c]) (by simp)
    | cons d rest =>
      rw [splitlinesAux]
      split
      · simp
      · split
        · simp
        · exact ih (cur ++ [c]) (by simp)

theorem joinNl_cons_of_ne (l : List Char) (ls : List (List Char)) (h : ls ≠ []) :
    joinNl (l :: ls) = l ++ '\n' :: joinNl ls := by
  cases ls with
  | nil => exact absurd rfl h
  | cons l2 ls' => rfl

theorem getLast?_cons_of_ne_nil (c : Char) (rest : List Char) (h : rest ≠ []) :
    (c :: rest).getLast? = rest.getLast? := by
  cases rest with
  | nil => exact absurd rfl h
  | cons d rest' => exact List.getLast?_cons_cons

theorem joinNl_splitlinesAux (s : List Char) :
    ∀ cur, (∀ c ∈ s, isLineBreak c = true → c = '\n') →
      s.getLast? ≠ some '\n' →
      joinNl (splitlinesAux s cur) = cur ++ s := by
  induction s with
  | nil =>
    intro cur _ _
    rw [splitlinesAux]
    split
    · rename_i hemp
      rw [List.isEmpty_iff] at hemp
      simp [joinNl, hemp]
    · simp [joinNl]
  | cons c rest ih =>
    intro cur honly hlast
    by_cases hbr : isLineBreak c = true
    · have hcn : c = '\n' := honly c (List.mem_cons_self c rest) hbr
      subst hcn
      have hrest : rest ≠ [] := by
        intro hre
        subst hre
        exact hlast rfl
      rw [splitlinesAux_cons_nl rest cur,
        joinNl_cons_of_ne cur _ (splitlinesAux_ne_nil rest [] (by simpa using hrest)),
        ih [] (fun x hx hb => honly x (List.mem_cons_of_mem _ hx) hb)
          (by rw [← getLast?_cons_of_ne_nil '\n' rest hrest]; exact hlast)]
      simp
    · have hc : isLineBreak c = false := by
        cases hb2 : isLineBreak c
        · rfl
        · exact absurd hb2 hbr
      have hlast' : rest.getLast? ≠ some '\n' := by
        cases hre : rest with
        | nil => simp
        | cons d rest' =>
          rw [← hre, ← getLast?_cons_of_ne_nil c rest (by rw [hre]; simp)]
          exact hlast
      rw [splitlinesAux_cons_noBreak c rest cur hc,
        ih (cur ++ [c]) (fun x hx hb => honly x (List.mem_cons_of_mem _ hx) hb) hlast']
      simp

theorem joinNl_splitlines_id (s : List Char)
    (honly : ∀ c ∈ s, isLineBreak c = true → c = '\n')
    (hlast : s.getLast? ≠ some '\n') : joinNl (splitlines s) = s := by
  rw [splitlines]
  simpa using joinNl_splitlinesAux s [] honly hlast

theorem splitlinesAux_mem_noBreak (n : Nat) :
    ∀ (s cur : List Char), s.length ≤ n → (∀ c ∈ cur, isLineBreak c = false) →
      ∀ l ∈ splitlinesAux s cur, ∀ c ∈ l, isLineBreak c = false := by
  induction n with
  | zero =>
    intro s cur hlen hcur l hl
    have hs : s = [] := List.eq_nil_of_length_eq_zero (Nat.le_zero.mp hlen)
    subst hs
    rw [splitlinesAux] at hl
    split at hl
    · simp at hl
    · rw [List.mem_singleton] at hl
      subst hl
      exact hcur
  | succ n ih =>
    intro s cur hlen hcur l hl
    cases s with
    | nil =>
      rw [splitlinesAux] at hl
      split at hl
      · simp at hl
      · rw [List.mem_singleton] at hl
        subst hl
        exact hcur
    | cons c s' =>
      have happ : ∀ x : Char, (∀ cc ∈ cur, isLineBreak cc = false) →
          isLineBreak x = false → ∀ cc ∈ cur ++ [x], isLineBreak cc = false := by
        intro x h1 h2 cc hcc
        rcases List.mem_append.mp hcc with h3 | h3
        · exact h1 cc h3
        · rw [List.mem_singleton] at h3
          subst h3
          exact h2
      cases s' with
      | nil =>
        rw [splitlinesAux] at hl
        split at hl
        · rcases List.mem_cons.mp hl with h1 | h1
          · subst h1; exact hcur
          · simp [splitlinesAux] at h1
        · rename_i hbr
          have hc : isLineBreak c = false := by simpa using hbr
          exact ih [] (cur ++ [c]) (by simp) (happ c hcur hc) l hl
      | cons d rest =>
        simp only [List.length_cons] at hlen
        rw [splitlinesAux] at hl
        split at hl
        · rcases List.mem_cons.mp hl with h1 | h1
          · subst h1; exact hcur
          · exact ih rest [] (by omega) (by simp) l h1
        · split at hl
          · rcases List.mem_cons.mp hl with h1 | h1
            · subst h1; exact hcur
            · exact ih (d :: rest) [] (by simp; omega) (by simp) l h1
          · rename_i hbr
            have hc : isLineBreak c = false := by simpa using hbr
            exact ih (d :: rest) (cur ++ [c]) (by simp; omega) (happ c hcur hc) l hl

theorem length_splitlines_joinNl (ls : List (List Char))
    (h : ∀ l ∈ ls, ∀ c ∈ l, isLineBreak c = false) :
    (splitlines (joinNl ls)).length ≤ ls.length := by
  induction ls with
  | nil => simp [joinNl, splitlines, splitlinesAux]
  | cons l ls' ih =>
    cases ls' with
    | nil =>
      show (splitlines l).length ≤ 1
      rw [splitlines, splitlinesAux_noBreak l [] (fun c hc => h l (by simp) c hc)]
      split <;> simp
    | cons l2 ls'' =>
      rw [joinNl_cons_of_ne l (l2 :: ls'') (by simp), splitlines,
        splitlinesAux_append_nl l _ [] (fun c hc => h l (by simp) c hc)]
      simp only [List.length_cons]
      have hrec := ih (fun x hx => h x (List.mem_cons_of_mem l hx))
      rw [splitlines] at hrec
      simp only [List.length_cons] at hrec
      omega

theorem read_buffer_some_pos (raw : List Char) (n : Nat) (hn : 0 < n) :
    read_buffer raw (some (n : Int)) =
      joinNl (lastLines n (splitlines (strip_ansi raw))) := by
  rw [read_buffer]
  congr 1
  unfold pySliceFrom lastLines
  rw [if_pos (by omega : -(n : Int) < 0)]
  congr 1
  omega

theorem read_buffer_zero (raw : List Char) :
    read_buffer raw (some 0) = joinNl (splitlines (strip_ansi raw)) := by
  rw [read_buffer]
  congr 1

/-- Claim C8: `read_buffer` sanitizes the raw capture first and, given a
positive line count `n`, returns exactly the last `n` lines of the
sanitized text joined by single newlines (`min n total` lines when the
buffer is shorter); with no count it returns the full sanitized text. -/
theorem C8_line_limited_read (raw : List Char) (n : Nat) (hn : 0 < n) :
    read_buffer raw (some (n : Int)) =
      joinNl (lastLines n (splitlines (strip_ansi raw))) ∧
    (lastLines n (splitlines (strip_ansi raw))).length =
      min n (splitlines (strip_ansi raw)).length ∧
    read_buffer raw none = strip_ansi raw := by
  refine ⟨read_buffer_some_pos raw n hn, ?_, rfl⟩
  rw [lastLines]
  simp only [List.length_drop]
  omega

theorem C8_line_limited_read_witness :
    0 < 2 ∧
    (read_buffer "l1\nl2\nl3\nl4".toList (some (2 : Int)) =
      joinNl (lastLines 2 (splitlines (strip_ansi "l1\nl2\nl3\nl4".toList))) ∧
    (lastLines 2 (splitlines (strip_ansi "l1\nl2\nl3\nl4".toList))).length =
      min 2 (splitlines (strip_ansi "l1\nl2\nl3\nl4".toList)).length ∧
    read_buffer "l1\nl2\nl3\nl4".toList none = strip_ansi "l1\nl2\nl3\nl4".toList) :=
  ⟨by decide, C8_line_limited_read "l1\nl2\nl3\nl4".toList 2 (by decide)⟩

/-- Claim C10, counterexample: with a line count of 0 the code joins
`splitlines()` of the sanitized buffer, which loses a trailing newline,
so the result is not the entire sanitized buffer: on the capture
`"a\n"` it returns `"a"`. -/
theorem C10_counterexample :
    read_buffer "a\n".toList (some 0) ≠ strip_ansi "a\n".toList := by decide

/-- Claim C10 (amended): a line count of 0 is treated as no limit — the
result is the newline-join of all lines of the sanitized buffer, which
equals the entire sanitized buffer whenever the sanitized text uses only
`\n` line breaks and does not end in one (a trailing newline is lost,
so the result is not always the whole buffer) — and every positive `n`
yields at most `n` lines. -/
theorem C10_zero_line_count (raw : List Char) (n : Nat) (hn : 0 < n) :
    read_buffer raw (some 0) = joinNl (splitlines (strip_ansi raw)) ∧
    ((∀ c ∈ strip_ansi raw, isLineBreak c = true → c = '\n') →
      (strip_ansi raw).getLast? ≠ some '\n' →
      read_buffer raw (some 0) = strip_ansi raw) ∧
    (splitlines (read_buffer raw (some (n : Int)))).length ≤ n := by
  refine ⟨read_buffer_zero raw, ?_, ?_⟩
  · intro honly hlast
    rw [read_buffer_zero raw, joinNl_splitlines_id _ honly hlast]
  · rw [read_buffer_some_pos raw n hn]
    have hmem : ∀ l ∈ lastLines n (splitlines (strip_ansi raw)),
        ∀ c ∈ l, isLineBreak c = false := by
      intro l hl
      have hmem2 : l ∈ splitlines (strip_ansi raw) := by
        rw [lastLines] at hl
        exact List.mem_of_mem_drop hl
      rw [splitlines] at hmem2
      exact splitlinesAux_mem_noBreak (strip_ansi raw).length (strip_ansi raw) []
        (le_refl _) (by simp) l hmem2
    have h1 := length_splitlines_joinNl _ hmem
    have h2 : (lastLines n (splitlines (strip_ansi raw))).length ≤ n := by
      rw [lastLines]
      simp only [List.length_drop]
      omega
    omega

theorem C10_zero_line_count_witness :
    0 < 1 ∧
    (read_buffer "a\nb".toList (some 0) =
      joinNl (splitlines (strip_ansi "a\nb".toList)) ∧
    ((∀ c ∈ strip_ansi "a\nb".toList, isLineBreak c = true → c = '\n') →
      (strip_ansi "a\nb".toList).getLast? ≠ some '\n' →
      read_buffer "a\nb".toList (some 0) = strip_ansi "a\nb".toList) ∧
    (splitlines (read_buffer "a\nb".toList (some (1 : Int)))).length ≤ 1) :=
  ⟨by decide, C10_zero_line_count "a\nb".toList 1 (by decide)⟩

theorem splitlines_joinNl_eq (ls : List (List Char))
    (h : ∀ l ∈ ls, ∀ c ∈ l, isLineBreak c = false)
    (hne : ls ≠ []) (hlast : ls.getLast? ≠ some []) :
    splitlines (joinNl ls) = ls := by
  induction ls with
  | nil => exact absurd rfl hne
  | cons l ls' ih =>
    cases ls' with
    | nil =>
      have hl : l ≠ [] := by
        intro he
        subst he
        exact hlast rfl
      show splitlines l = [l]
      rw [splitlines, splitlinesAux_noBreak l [] (fun c hc => h l (by simp) c hc)]
      simp [hl]
    | cons l2 ls'' =>
      rw [joinNl_cons_of_ne l _ (by simp), splitlines,
        splitlinesAux_append_nl l _ [] (fun c hc => h l (by simp) c hc),
        List.nil_append]
      congr 1
      have hrec := ih (fun x hx => h x (List.mem_cons_of_mem l hx)) (by simp)
        (by rw [← List.getLast?_cons_cons (a := l)]; exact hlast)
      rw [splitlines] at hrec
      exact hrec

/-- Claim C2, counterexample: the cleaning step filters on the literal
`__TMUX_BRIDGE_`, not `__BRIDGE_`; on the block
`echo '__BRIDGE_START_x__' / ls / hello / echo '__BRIDGE_END_x__'` for
the command `ls`, the two `__BRIDGE_`-marker lines survive cleaning, so
the result is not the genuine output line `hello`. -/
theorem C2_counterexample :
    clean_marker_output
      ("echo ".toList ++ [squote] ++ "__BRIDGE_START_x__".toList ++ [squote] ++
        "\nls\nhello\necho ".toList ++ [squote] ++ "__BRIDGE_END_x__".toList ++ [squote])
      "ls".toList ≠ "hello".toList := by decide

/-- Claim C2 (amended): for every raw block made of a marker-echo line
(whose stripped form still contains `__TMUX_BRIDGE_`), an echoed command
line equal to the submitted command up to a shell prompt prefix, one or
more genuine output lines (each surviving the cleaning filters), and an
end-marker echo line, the cleaning step returns exactly the genuine
output lines in order, joined by newlines with leading/trailing
whitespace stripped; every line whose stripped form contains the literal
`__TMUX_BRIDGE_` (not `__BRIDGE_`) is dropped. -/
theorem C2_output_cleaning (cmd startEcho cmdLine endEcho : List Char)
    (genuine : List (List Char))
    (hbreak : ∀ l ∈ [startEcho, cmdLine] ++ genuine ++ [endEcho],
      ∀ c ∈ l, isLineBreak c = false)
    (hstart : containsSub markerLit (pyStrip startEcho) = true)
    (hend : containsSub markerLit (pyStrip endEcho) = true)
    (hendne : endEcho ≠ [])
    (hcmd : stripPrompt (pyStrip cmdLine) = pyStrip cmd)
    (hgen : ∀ l ∈ genuine, keepLine cmd l = true) :
    clean_marker_output (joinNl ([startEcho, cmdLine] ++ genuine ++ [endEcho])) cmd =
      pyStrip (joinNl genuine) := by
  have hkS : keepLine cmd startEcho = false := by
    simp [keepLine, hstart]
  have hkE : keepLine cmd endEcho = false := by
    simp [keepLine, hend]
  have hkC : keepLine cmd cmdLine = false := by
    simp [keepLine, hcmd]
  have hglast : ([startEcho, cmdLine] ++ genuine ++ [endEcho]).getLast? = some endEcho :=
    List.getLast?_concat _
  rw [clean_marker_output,
    splitlines_joinNl_eq _ hbreak (by simp) (by rw [hglast]; simp [hendne])]
  have hfil : ([startEcho, cmdLine] ++ genuine ++ [endEcho]).filter (keepLine cmd) =
      genuine := by
    simp [List.filter_append, List.filter_cons, hkS, hkC, hkE,
      List.filter_eq_self.mpr hgen]
  rw [hfil]

theorem C2_output_cleaning_witness :
    (∀ l ∈ [("echo ".toList ++ [squote] ++ "__TMUX_BRIDGE_START_ab__".toList ++ [squote]),
        "$ ls".toList] ++ ["hello".toList] ++
        [("echo ".toList ++ [squote] ++ "__TMUX_BRIDGE_END_ab__".toList ++ [squote])],
      ∀ c ∈ l, isLineBreak c = false) ∧
    containsSub markerLit
      (pyStrip ("echo ".toList ++ [squote] ++ "__TMUX_BRIDGE_START_ab__".toList ++ [squote])) =
      true ∧
    containsSub markerLit
      (pyStrip ("echo ".toList ++ [squote] ++ "__TMUX_BRIDGE_END_ab__".toList ++ [squote])) =
      true ∧
    stripPrompt (pyStrip "$ ls".toList) = pyStrip "ls".toList ∧
    (∀ l ∈ ["hello".toList], keepLine "ls".toList l = true) ∧
    clean_marker_output
      (joinNl ([("echo ".toList ++ [squote] ++ "__TMUX_BRIDGE_START_ab__".toList ++ [squote]),
        "$ ls".toList] ++ ["hello".toList] ++
        [("echo ".toList ++ [squote] ++ "__TMUX_BRIDGE_END_ab__".toList ++ [squote])]))
      "ls".toList = pyStrip (joinNl ["hello".toList]) :=
  ⟨by decide, by decide, by decide, by decide, by decide,
    C2_output_cleaning "ls".toList _ _ _ ["hello".toList]
      (by decide) (by decide) (by decide) (by decide) (by decide) (by decide)⟩

theorem pollAux_none (check : Nat → Option (List Char)) (h : ∀ k, check k = none) :
    ∀ (fuel k : Nat), (pollAux check k fuel).2 = none := by
  intro fuel
  induction fuel with
  | zero => intro k; rfl
  | succ fuel ih =>
    intro k
    rw [pollAux, h k]
    exact ih (k + 1)

theorem promptLoop_none (step : Nat → Option (List Char)) (h : ∀ k, step k = none) :
    ∀ (fuel k : Nat), promptLoop step k fuel = none := by
  intro fuel
  induction fuel with
  | zero => intro k; rfl
  | succ fuel ih =>
    intro k
    rw [promptLoop, h k]
    exact ih (k + 1)

theorem promptStep_none (pm : List Char → Bool) (h : ∀ l, pm l = false)
    (preLen : Nat) (bufRaw visRaw : List Char) :
    promptStep pm preLen bufRaw visRaw = none := by
  simp only [promptStep]
  rw [if_neg ?c1]
  case c1 =>
    cases hM : (splitlines ((read_buffer bufRaw none).drop preLen)).getLast? <;> simp [h]
  rw [if_neg (by simp [h])]

theorem le_numPolls_mul (timeout interval : ℚ) (hi : 0 < interval) :
    timeout ≤ (numPolls timeout interval : ℚ) * interval := by
  rw [numPolls]
  exact (div_le_iff₀ hi).mp (Nat.le_ceil (timeout / interval))

/-- Claim C4: for every execution, under either protocol, in which the
completion condition is never observed — no marker extraction ever
succeeds on a captured buffer, and the prompt pattern never matches —
`execute_and_wait` ends in the timeout error carrying the configured
timeout value and the original command text (never a success with
partial output), and the error arises only after the polls have covered
the whole timeout window (`numPolls * interval ≥ timeout`, i.e. the
`while monotonic < deadline` loop only raises once the deadline has
passed). -/
theorem C4_timeout_outcome (bufs visibles : Nat → List Char) (pm : List Char → Bool)
    (preRaw cmd uuidHex : List Char) (timeout interval : ℚ)
    (hi : 0 < interval)
    (hm : ∀ k, extractBetween (mkStartMarker (markerToken uuidHex))
      (mkEndMarker (markerToken uuidHex)) (read_buffer (bufs k) none) = none)
    (hp : ∀ l, pm l = false) :
    execute_and_wait true bufs visibles pm preRaw cmd uuidHex timeout interval =
      .timeoutErr timeout cmd ∧
    execute_and_wait false bufs visibles pm preRaw cmd uuidHex timeout interval =
      .timeoutErr timeout cmd ∧
    timeout ≤ (numPolls timeout interval : ℚ) * interval := by
  refine ⟨?_, ?_, le_numPolls_mul timeout interval hi⟩
  · show (executeWithMarkers bufs cmd uuidHex timeout interval).2 = _
    simp only [executeWithMarkers]
    rw [pollAux_none _ hm (numPolls timeout interval) 0]
  · show executeWithPrompt bufs visibles pm preRaw cmd timeout interval = _
    simp only [executeWithPrompt]
    rw [promptLoop_none _
      (fun k => promptStep_none pm hp ((read_buffer preRaw none).length) (bufs k) (visibles k))
      (numPolls timeout interval) 0]

theorem C4_timeout_outcome_witness :
    (0 : ℚ) < 1 ∧
    (∀ k : Nat, extractBetween
      (mkStartMarker (markerToken "0123456789abcdef0123456789abcdef".toList))
      (mkEndMarker (markerToken "0123456789abcdef0123456789abcdef".toList))
      (read_buffer ((fun _ : Nat => ([] : List Char)) k) none) = none) ∧
    (execute_and_wait true (fun _ => []) (fun _ => []) (fun _ => false) [] "ls".toList
        "0123456789abcdef0123456789abcdef".toList 1 1 =
      .timeoutErr 1 "ls".toList ∧
    execute_and_wait false (fun _ => []) (fun _ => []) (fun _ => false) [] "ls".toList
        "0123456789abcdef0123456789abcdef".toList 1 1 =
      .timeoutErr 1 "ls".toList ∧
    (1 : ℚ) ≤ (numPolls 1 1 : ℚ) * 1) :=
  ⟨by norm_num,
    fun k => by
      show extractBetween
        (mkStartMarker (markerToken "0123456789abcdef0123456789abcdef".toList))
        (mkEndMarker (markerToken "0123456789abcdef0123456789abcdef".toList))
        (read_buffer [] none) = none
      decide,
    C4_timeout_outcome (fun _ => []) (fun _ => []) (fun _ => false) [] "ls".toList
      "0123456789abcdef0123456789abcdef".toList 1 1
      (by norm_num)
      (fun k => by
        show extractBetween
          (mkStartMarker (markerToken "0123456789abcdef0123456789abcdef".toList))
          (mkEndMarker (markerToken "0123456789abcdef0123456789abcdef".toList))
          (read_buffer [] none) = none
        decide)
      (fun l => rfl)⟩

theorem pollAux_trace (check : Nat → Option (List Char)) :
    ∀ (fuel k : Nat), ∀ e2 ∈ (pollAux check k fuel).1, e2 = TmuxEffect.capturePane true := by
  intro fuel
  induction fuel with
  | zero => intro k e2 he2; simp [pollAux] at he2
  | succ fuel ih =>
    intro k e2 he2
    rw [pollAux] at he2
    cases hc : check k with
    | some out =>
      rw [hc] at he2
      simp at he2
      exact he2
    | none =>
      rw [hc] at he2
      rcases List.mem_cons.mp he2 with h1 | h1
      · exact h1
      · exact ih (k + 1) e2 h1

/-- Claim C9: a marker-protocol execution issues exactly three key-send
operations against the pane — the start-marker echo, the caller's
command verbatim (so the command is never chained with the end marker by
shell operators), and the end-marker echo, in that order, each followed
by Enter — and every other multiplexer operation in its trace is a
read-only `capture-pane`. -/
theorem C9_side_effect_frame (bufs : Nat → List Char) (cmd uuidHex : List Char)
    (timeout interval : ℚ) :
    (executeWithMarkers bufs cmd uuidHex timeout interval).1.filter isSendKeys =
      [TmuxEffect.sendKeys (echoCmd (mkStartMarker (markerToken uuidHex))) true,
       TmuxEffect.sendKeys cmd true,
       TmuxEffect.sendKeys (echoCmd (mkEndMarker (markerToken uuidHex))) true] ∧
    ∀ e2 ∈ (executeWithMarkers bufs cmd uuidHex timeout interval).1,
      isSendKeys e2 = true ∨ e2 = TmuxEffect.capturePane true := by
  have htr : (executeWithMarkers bufs cmd uuidHex timeout interval).1 =
      [TmuxEffect.sendKeys (echoCmd (mkStartMarker (markerToken uuidHex))) true,
       TmuxEffect.sendKeys cmd true,
       TmuxEffect.sendKeys (echoCmd (mkEndMarker (markerToken uuidHex))) true] ++
      (pollAux (fun k => extractBetween (mkStartMarker (markerToken uuidHex))
        (mkEndMarker (markerToken uuidHex)) (read_buffer (bufs k) none)) 0
        (numPolls timeout interval)).1 := rfl
  have hcap := pollAux_trace (fun k => extractBetween (mkStartMarker (markerToken uuidHex))
    (mkEndMarker (markerToken uuidHex)) (read_buffer (bufs k) none))
    (numPolls timeout interval) 0
  constructor
  · rw [htr, List.filter_append]
    have hnil : (pollAux (fun k => extractBetween (mkStartMarker (markerToken uuidHex))
        (mkEndMarker (markerToken uuidHex)) (read_buffer (bufs k) none)) 0
        (numPolls timeout interval)).1.filter isSendKeys = [] := by
      rw [List.filter_eq_nil_iff]
      intro a ha
      rw [hcap a ha]
      simp [isSendKeys]
    rw [hnil]
    rfl
  · intro e2 he2
    rw [htr] at he2
    rcases List.mem_append.mp he2 with h1 | h1
    · left
      rcases List.mem_cons.mp h1 with h2 | h2
      · subst h2; rfl
      rcases List.mem_cons.mp h2 with h3 | h3
      · subst h3; rfl
      rcases List.mem_cons.mp h3 with h4 | h4
      · subst h4; rfl
      · simp at h4
    · right
      exact hcap e2 h1
